import Mathlib

/-!
Shallow embedding of `src/pdf-merge.py` (a CLI tool that merges and splits
PDF files with pypdf).  Pure logic — the range parser, filename planning,
the overwrite guards, metadata copying and page concatenation — is
translated into executable Lean definitions; the filesystem is modelled as
an explicit map from paths to contents, and `err(...)`/uncaught exceptions
become `Except` errors.  Theorems about the claims follow the definitions.
-/

/-- Whitespace characters recognised by Python's `str.strip()` and `int()`
(the ASCII subset: space, tab, newline, carriage return, vertical tab,
form feed). -/
def pyWhitespace (c : Char) : Bool :=
  c = ' ' || c = '\t' || c = '\n' || c = '\r' || c = '\x0b' || c = '\x0c'

/-- Python `s.strip()`: drop leading and trailing whitespace. -/
def pyStrip (s : String) : String :=
  String.mk (((s.toList.dropWhile pyWhitespace).reverse.dropWhile pyWhitespace).reverse)

/-- Numeric value of a decimal digit character. -/
def digitVal (c : Char) : Nat := c.toNat - 48

/-- Remaining digits of a Python integer literal after the first digit:
Python's `int` accepts single underscores strictly between digits
(`int("1_0") = 10`, while `"1_"`, `"_1"`, `"1__0"` all fail).  `acc` holds
the value of the digits consumed so far. -/
def pyDigitsAux : List Char → Nat → Option Nat
  | [], acc => some acc
  | ['_'], _ => none
  | '_' :: c :: rest, acc =>
    if c.isDigit then pyDigitsAux rest (acc * 10 + digitVal c) else none
  | c :: rest, acc =>
    if c.isDigit then pyDigitsAux rest (acc * 10 + digitVal c) else none

/-- Python `int(s)` on a string: strips surrounding whitespace, accepts an
optional `+`/`-` sign, then decimal digits (with underscore separators);
`none` models the `ValueError` raised on any other content. -/
def pyInt (s : String) : Option Int :=
  match (pyStrip s).toList with
  | '+' :: c :: rest =>
    if c.isDigit then (pyDigitsAux rest (digitVal c)).map Int.ofNat else none
  | '-' :: c :: rest =>
    if c.isDigit then (pyDigitsAux rest (digitVal c)).map (fun n => -(Int.ofNat n)) else none
  | c :: rest =>
    if c.isDigit then (pyDigitsAux rest (digitVal c)).map Int.ofNat else none
  | [] => none

/-- Failure cases of `parse_ranges`; one constructor per `err(...)` call
site in `parse_ranges` (src/pdf-merge.py lines 20-65).  `bareDash` and
`invalidToken` print the same message text (`Invalid range token: ...`)
but are distinct call sites; the remaining constructors carry distinct
message texts in the source. -/
inductive RangeErr where
  /-- line 23: `No pages matched ranges: (empty spec)` -/
  | emptySpec
  /-- line 27: bare `-` token -/
  | bareDash
  /-- lines 34/41/48/53: `Invalid range token: '{tok}'` -/
  | invalidToken (tok : String)
  /-- line 56: `Range must be positive: '{tok}'` -/
  | nonPositive (tok : String)
  /-- line 58: `Range start > end: '{tok}'` -/
  | inverted (tok : String)
  /-- line 60: `Range out of bounds for file with {total_pages} pages: {tok}` -/
  | outOfBounds (tok : String)
  /-- line 64: `No pages matched ranges: {spec}` (unreachable in practice) -/
  | noMatch (spec : String)
deriving DecidableEq, Repr

instance (priority := low) {ε α : Type} [DecidableEq ε] [DecidableEq α] :
    DecidableEq (Except ε α) := fun a b =>
  match a, b with
  | .ok x, .ok y =>
    if h : x = y then .isTrue (by rw [h]) else .isFalse (by intro hc; cases hc; exact h rfl)
  | .error x, .error y =>
    if h : x = y then .isTrue (by rw [h]) else .isFalse (by intro hc; cases hc; exact h rfl)
  | .ok _, .error _ => .isFalse (by intro hc; cases hc)
  | .error _, .ok _ => .isFalse (by intro hc; cases hc)

/-- Splits a character list on a separator, keeping empty groups, as
Python `str.split(sep)` does (so splitting the empty string yields one
empty group). -/
def splitOnChar (sep : Char) : List Char → List (List Char)
  | [] => [[]]
  | c :: rest =>
    let r := splitOnChar sep rest
    if c = sep then [] :: r
    else
      match r with
      | [] => [[c]]
      | g :: gs => (c :: g) :: gs

/-- Python `s.split(",")` (unbounded split, empty parts kept). -/
def pySplit (s : String) (sep : Char) : List String :=
  (splitOnChar sep s.toList).map String.mk

/-- Python `tok.split("-", 1)` for a token: the part before the first dash
and everything after it. -/
def splitDash1 (tok : String) : String × String :=
  (String.mk (tok.toList.takeWhile (fun c => c ≠ '-')),
   String.mk ((tok.toList.dropWhile (fun c => c ≠ '-')).drop 1))

/-- Python `"-" in tok` for a one-character needle. -/
def containsDash (tok : String) : Bool :=
  tok.toList.contains '-'

/-- Python `tok.startswith("-")`. -/
def startsDash (tok : String) : Bool :=
  match tok.toList with
  | '-' :: _ => true
  | _ => false

/-- Python `tok.endswith("-")`. -/
def endsDash (tok : String) : Bool :=
  match tok.toList.getLast? with
  | some '-' => true
  | _ => false

/-- Python `tok[1:]`. -/
def dropFirst (tok : String) : String :=
  String.mk (tok.toList.drop 1)

/-- Python `tok[:-1]`. -/
def dropLast (tok : String) : String :=
  String.mk (tok.toList.dropLast)

/-- Numeric extraction for one token of `parse_ranges` (lines 28-53): the
branch on dash position producing the raw `(start, end)` pair, before the
bounds checks run.  `total` is `total_pages`, used by the open-end form. -/
def rawParse (tok : String) (total : Int) : Except RangeErr (Int × Int) :=
  if containsDash tok then
    if startsDash tok then
      match pyInt (dropFirst tok) with
      | none => .error (.invalidToken tok)
      | some e => .ok (1, e)
    else if endsDash tok then
      match pyInt (dropLast tok) with
      | none => .error (.invalidToken tok)
      | some s => .ok (s, total)
    else
      match pyInt (splitDash1 tok).1, pyInt (splitDash1 tok).2 with
      | some s, some e => .ok (s, e)
      | _, _ => .error (.invalidToken tok)
  else
    match pyInt tok with
    | none => .error (.invalidToken tok)
    | some n => .ok (n, n)

/-- Validation checks on a raw pair, in source order (lines 55-60):
non-positive, then inverted, then out of bounds. -/
def checkRange (tok : String) (total : Int) (p : Int × Int) : Except RangeErr (Int × Int) :=
  if p.1 ≤ 0 ∨ p.2 ≤ 0 then .error (.nonPositive tok)
  else if p.1 > p.2 then .error (.inverted tok)
  else if p.1 > total ∨ p.2 > total then .error (.outOfBounds tok)
  else .ok p

/-- Processing of one (already stripped, non-empty) token: the bare-dash
check (line 26), then numeric extraction, then the bounds checks. -/
def parseToken (tok : String) (total : Int) : Except RangeErr (Int × Int) :=
  if tok = "-" then .error .bareDash
  else
    match rawParse tok total with
    | .error e => .error e
    | .ok p => checkRange tok total p

/-- Tokenisation of a range spec (line 21): split on commas, strip each
part, drop empty parts. -/
def pyTokens (spec : String) : List String :=
  ((pySplit spec ',').map pyStrip).filter (fun t => t ≠ "")

/-- The token loop of `parse_ranges` (lines 25-61): results are appended
in token order; the first failing token aborts the whole parse. -/
def parseTokens : List String → Int → Except RangeErr (List (Int × Int))
  | [], _ => .ok []
  | t :: ts, total =>
    match parseToken t total with
    | .error e => .error e
    | .ok r =>
      match parseTokens ts total with
      | .error e => .error e
      | .ok rs => .ok (r :: rs)

/-- `parse_ranges(spec, total_pages)` (lines 20-65); `pyTokens spec` is the
`tokens` local of line 21, and the final `if not result` check of line 63
is the trailing guard (unreachable once `tokens` is non-empty). -/
def parse_ranges (spec : String) (total : Int) : Except RangeErr (List (Int × Int)) :=
  if pyTokens spec = [] then .error .emptySpec
  else
    match parseTokens (pyTokens spec) total with
    | .error e => .error e
    | .ok rs => if rs = [] then .error (.noMatch spec) else .ok rs

/-! Filename planning (`make_split_name`, lines 134-140).  Python's
`str.format` is modelled by a character-level state machine covering the
constructs a name pattern can use: literal text, `{field}` substitution
and the `{{`/`}}` escapes; a stray brace, an unterminated field or an
unknown field name yields `none` (the `ValueError`/`KeyError`/`IndexError`
the real `format` raises there).  Format specs (`{x:...}`) are not
modelled; their colon would end up inside the field name and fail the
lookup, where Python would instead apply the spec. -/

/-- Scanner state for `pyFormat`: in literal text, just after `{`, just
after `}`, or inside a field name (accumulated in reverse). -/
inductive FmtMode where
  | normal
  | afterLbrace
  | afterRbrace
  | inField (acc : List Char)
deriving DecidableEq, Repr

/-- One step of the `str.format` scanner; `none` is a raised exception. -/
def fmtStep (env : List (String × String)) :
    Option (String × FmtMode) → Char → Option (String × FmtMode)
  | none, _ => none
  | some (out, .normal), c =>
    if c = '{' then some (out, .afterLbrace)
    else if c = '}' then some (out, .afterRbrace)
    else some (out.push c, .normal)
  | some (out, .afterLbrace), c =>
    if c = '{' then some (out.push '{', .normal)
    else if c = '}' then
      match env.lookup "" with
      | some v => some (out ++ v, .normal)
      | none => none
    else some (out, .inField [c])
  | some (out, .afterRbrace), c =>
    if c = '}' then some (out.push '}', .normal) else none
  | some (out, .inField acc), c =>
    if c = '}' then
      match env.lookup (String.mk acc.reverse) with
      | some v => some (out ++ v, .normal)
      | none => none
    else some (out, .inField (c :: acc))

/-- Python `pattern.format(**env)` for the plain-field patterns
`make_split_name` feeds it. -/
def pyFormat (pattern : String) (env : List (String × String)) : Option String :=
  match pattern.toList.foldl (fmtStep env) (some ("", .normal)) with
  | some (out, .normal) => some out
  | _ => none

/-- Default split filenames (lines 138-140). -/
def defaultSplitName (base : String) (s e : Int) : String :=
  if s = e then base ++ "_p" ++ toString s ++ ".pdf"
  else base ++ "_p" ++ toString s ++ "-" ++ toString e ++ ".pdf"

/-- `make_split_name(base, start, end, pattern)` (lines 134-140).  Python's
`if pattern:` is falsy for both `None` and the empty string, so an empty
pattern falls through to the default names.  When `start != end` the
`page` keyword passed to `str.format` is `None`, which formats as the
string "None".  `none` models an exception escaping from `format`. -/
def make_split_name (base : String) (s e : Int) (pattern : Option String) : Option String :=
  match pattern with
  | some p =>
    if p ≠ "" then
      pyFormat p
        [("base", base), ("page", if s = e then toString s else "None"),
         ("start", toString s), ("end", toString e)]
    else some (defaultSplitName base s e)
  | none => some (defaultSplitName base s e)

/-! Documents, the filesystem, and the two command flows. -/

/-- Model of an opened PDF document as the flows use it: the page list
(pages are abstract identifiers), the password protecting it (`none` for
an unencrypted file, mirroring `reader.is_encrypted`), and the optional
info dictionary behind `reader.metadata` (`none` when absent; a key can map
to Python `None`, hence `Option String` values; keys are distinct since the
source iterates a dict). -/
structure PdfDoc where
  pages : List Nat
  pwd : Option String := none
  metadata : Option (List (String × Option String)) := none
deriving DecidableEq, Repr

/-- `reader.is_encrypted`. -/
def PdfDoc.encrypted (d : PdfDoc) : Bool := d.pwd.isSome

/-- Python truthiness of an optional string: `not password` is true for
`None` and for the empty string. -/
def pyFalsyStr (s : Option String) : Bool := s.getD "" = ""

/-- Python `str(k).startswith("/")` on a metadata key. -/
def startsSlash (k : String) : Bool :=
  match k.toList with
  | '/' :: _ => true
  | _ => false

/-- Failure cases of `merge_cmd` (lines 87-131); one constructor per exit
path. -/
inductive MergeErr where
  /-- line 92: refusal to overwrite the existing output (exit 2) -/
  | outputExists (out : String)
  /-- line 99: `open(path, "rb")` on a missing path raises an uncaught
  `FileNotFoundError` (Python traceback, exit code 1) — `merge_cmd` never
  calls `require_exists` or `open_reader`, so there is no classified
  `Input not found` report here. -/
  | fileNotFoundExc (path : String)
  /-- line 104: `File is encrypted: ... (pass --password)` -/
  | encryptedNoPassword (path : String)
  /-- line 107: `Failed to decrypt: ... (check --password)` -/
  | decryptFailed (path : String)
deriving DecidableEq, Repr

/-- Opening and decrypting one merge input (lines 98-109) against a
filesystem mapping paths to the documents stored there. -/
def openMergeInput (fs : String → Option PdfDoc) (password : Option String)
    (path : String) : Except MergeErr PdfDoc :=
  match fs path with
  | none => .error (.fileNotFoundExc path)
  | some d =>
    if d.encrypted then
      if pyFalsyStr password then .error (.encryptedNoPassword path)
      else if password ≠ d.pwd then .error (.decryptFailed path)
      else .ok d
    else .ok d

/-- The input loop of `merge_cmd`: readers accumulate in argument order,
the first failure aborts. -/
def openMergeInputs (fs : String → Option PdfDoc) (password : Option String) :
    List String → Except MergeErr (List PdfDoc)
  | [] => .ok []
  | p :: ps =>
    match openMergeInput fs password p with
    | .error e => .error e
    | .ok d =>
      match openMergeInputs fs password ps with
      | .error e => .error e
      | .ok ds => .ok (d :: ds)

/-- Qualifying metadata entries of the first reader (lines 115-117): key
non-empty and starting with "/"; a `None` value becomes the empty
string. -/
def mdEntries (items : List (String × Option String)) : List (String × String) :=
  items.filterMap (fun kv =>
    if kv.1 ≠ "" ∧ startsSlash kv.1 then some (kv.1, kv.2.getD "") else none)

/-- Metadata block of the merged output (lines 112-119): computed from the
first reader only; `if readers and readers[0].metadata` is false for an
absent (`None`) info dictionary and for an empty one, and `add_metadata`
is skipped when no entry qualifies (`if md:`).  `none` means the output
has no metadata block. -/
def mergeMetadata (readers : List PdfDoc) : Option (List (String × String)) :=
  match readers with
  | [] => none
  | r :: _ =>
    match r.metadata with
    | none => none
    | some items =>
      if items = [] then none
      else
        let md := mdEntries items
        if md = [] then none else some md

/-- The page loop of `merge_cmd` (lines 121-123): every page of every
reader is appended to the writer, readers in argument order. -/
def mergedPages (readers : List PdfDoc) : List Nat :=
  readers.foldl (fun acc r => r.pages.foldl (fun acc2 pg => acc2 ++ [pg]) acc) []

/-- The output document a successful merge writes. -/
structure MergeResult where
  metadata : Option (List (String × String))
  pages : List Nat
deriving DecidableEq, Repr

/-- `merge_cmd(inputs, output, password, overwrite)` (lines 87-131).  The
write to `out_path` (and its parent-directory creation) are the only
filesystem effects and happen solely in the `.ok` case, after every page
has been appended. -/
def merge_cmd (inputs : List String) (output : String) (password : Option String)
    (overwrite : Bool) (fs : String → Option PdfDoc) : Except MergeErr MergeResult :=
  if (fs output).isSome ∧ ¬overwrite then .error (.outputExists output)
  else
    match openMergeInputs fs password inputs with
    | .error e => .error e
    | .ok readers => .ok { metadata := mergeMetadata readers, pages := mergedPages readers }

/-- Failure cases of `split_cmd` (lines 143-189); one constructor per exit
path. -/
inductive SplitErr where
  /-- line 146 via `require_exists`: `Input not found: ...` -/
  | inputNotFound (path : String)
  /-- line 156 -/
  | encryptedNoPassword (path : String)
  /-- line 159 -/
  | decryptFailed (path : String)
  /-- a failure propagated unchanged from `parse_ranges` (line 162) -/
  | rangeErr (e : RangeErr)
  /-- an exception escaping `str.format` during filename planning -/
  | formatExc
  /-- lines 172-175: `Refusing to overwrite existing files: ...`, listing
  every clashing path -/
  | outputExists (clashes : List String)
deriving DecidableEq, Repr

/-- Final path component, as `pathlib` computes `Path(p).name` for ordinary
paths (trailing and repeated separators are normalised away). -/
def pyName (p : String) : String :=
  ((pySplit p '/').filter (fun s => s ≠ "")).getLastD ""

/-- Python `name.rfind(".")` restricted to found-or-not form. -/
def rfindDot (cs : List Char) : Option Nat :=
  match cs.reverse.findIdx? (fun c => c = '.') with
  | none => none
  | some j => some (cs.length - 1 - j)

/-- `Path(p).stem` (line 163): the final component without its last
suffix; pathlib keeps the name unchanged when the last dot is the first or
the last character. -/
def pyStem (p : String) : String :=
  let name := pyName p
  match rfindDot name.toList with
  | none => name
  | some i =>
    if 0 < i ∧ i < name.toList.length - 1 then String.mk (name.toList.take i) else name

/-- `out_dir / name` (line 169) with `out_dir = Path(outdir) if outdir
else Path(".")` (line 147); pathlib renders `Path(".") / n` as just `n`. -/
def plannedPath (outdir : String) (name : String) : String :=
  let od := if outdir = "" then "." else outdir
  if od = "." then name else od ++ "/" ++ name

/-- Pages written for one split segment (lines 179-181): `reader.pages[i]`
for `i` in `range(a - 1, b)` (1-based inclusive to 0-based). -/
def pageSlice (pages : List Nat) (a b : Int) : List Nat :=
  (pages.drop (a - 1).toNat).take (b - a + 1).toNat

/-- The filename-planning loop of `split_cmd` (lines 166-169), one name
per parsed range in range order; `none` is an exception escaping
`str.format`. -/
def planNames (base : String) (pattern : Option String) :
    List (Int × Int) → Option (List String)
  | [] => some []
  | r :: rs =>
    match make_split_name base r.1 r.2 pattern with
    | none => none
    | some n =>
      match planNames base pattern rs with
      | none => none
      | some ns => some (n :: ns)

/-- `split_cmd(input_file, ranges_spec, outdir, password, name_pattern,
overwrite)` (lines 143-189) over a filesystem modelled as the set of
existing paths (`fs`), the opened input document being `doc` (the model
reads the bytes at `input` as `doc` when the path exists).  A successful
run returns the ordered list of writes as (target path, page list) pairs;
creating `outdir` is the only earlier filesystem effect, and no output
file is written on any error path — the clash scan over the full plan runs
before the first write. -/
def split_cmd (input : String) (rangesSpec : String) (outdir : String)
    (password : Option String) (namePattern : Option String) (overwrite : Bool)
    (fs : String → Bool) (doc : PdfDoc) : Except SplitErr (List (String × List Nat)) :=
  if ¬ fs input then .error (.inputNotFound input)
  else if doc.encrypted ∧ pyFalsyStr password then .error (.encryptedNoPassword input)
  else if doc.encrypted ∧ password ≠ doc.pwd then .error (.decryptFailed input)
  else
    match parse_ranges rangesSpec (Int.ofNat doc.pages.length) with
    | .error e => .error (.rangeErr e)
    | .ok ranges =>
      match planNames (pyStem input) namePattern ranges with
      | none => .error .formatExc
      | some names =>
        let planned := names.map (plannedPath outdir)
        let clashes := planned.filter fs
        if clashes ≠ [] ∧ ¬overwrite then .error (.outputExists clashes)
        else .ok (List.zip planned (ranges.map (fun r => pageSlice doc.pages r.1 r.2)))

/-- Effect of the write loop (lines 178-183) on the filesystem contents:
each write stores its page list at its target path, later writes
shadowing earlier ones. -/
def applyWrites (fs0 : String → Option (List Nat)) (ws : List (String × List Nat)) :
    String → Option (List Nat) :=
  ws.foldl (fun f w => fun q => if q = w.1 then some w.2 else f q) fs0

/-! Name-pattern templates.  The spec's pattern grammar is literal text
interleaved with the four tokens `{base}`, `{start}`, `{end}`, `{page}`
(string substitution only), so a pattern in that grammar is denoted by a
list of pieces; this lets the substitution behaviour of `make_split_name`
be stated for every base name, every range and every such pattern at
once. -/

/-- One piece of a name-pattern template: literal text or one of the four
fields `make_split_name` supplies to `str.format`. -/
inductive PatPiece where
  | lit (text : String)
  | fldBase
  | fldStart
  | fldEnd
  | fldPage
deriving DecidableEq, Repr

/-- The pattern text a template denotes. -/
def patText : List PatPiece → String
  | [] => ""
  | .lit t :: ps => t ++ patText ps
  | .fldBase :: ps => "{base}" ++ patText ps
  | .fldStart :: ps => "{start}" ++ patText ps
  | .fldEnd :: ps => "{end}" ++ patText ps
  | .fldPage :: ps => "{page}" ++ patText ps

/-- Whether every literal piece is brace-free (a brace in literal text
would be the escape syntax or an error, not plain text, so it is outside
the spec's pattern grammar). -/
def patLitsOk : List PatPiece → Bool
  | [] => true
  | .lit t :: ps => t.toList.all (fun c => c != '{' && c != '}') && patLitsOk ps
  | _ :: ps => patLitsOk ps

/-- The result of substituting the four fields into a template as the
source computes them (line 137): `{base}` the input stem, `{start}` and
`{end}` the range bounds, `{page}` the start for a single-page range and
the string "None" otherwise. -/
def patSubst (b : String) (s e : Int) : List PatPiece → String
  | [] => ""
  | .lit t :: ps => t ++ patSubst b s e ps
  | .fldBase :: ps => b ++ patSubst b s e ps
  | .fldStart :: ps => toString s ++ patSubst b s e ps
  | .fldEnd :: ps => toString e ++ patSubst b s e ps
  | .fldPage :: ps => (if s = e then toString s else "None") ++ patSubst b s e ps

/-- The keyword mapping `make_split_name` passes to `str.format`
(line 137). -/
def splitEnv (b : String) (s e : Int) : List (String × String) :=
  [("base", b), ("page", if s = e then toString s else "None"),
   ("start", toString s), ("end", toString e)]

example : parse_ranges "1-3,7,9-" 10 = .ok [(1, 3), (7, 7), (9, 10)] := by decide
example : parse_ranges "-3" 10 = .ok [(1, 3)] := by decide
example : parse_ranges "5-" 10 = .ok [(5, 10)] := by decide
example : parse_ranges "5-3" 10 = .error (.inverted "5-3") := by decide
example : parse_ranges "11" 10 = .error (.outOfBounds "11") := by decide
example : parse_ranges "" 10 = .error .emptySpec := by decide
example : parse_ranges "1 - 3" 10 = .ok [(1, 3)] := by decide
example : parse_ranges "+5" 5 = .ok [(5, 5)] := by decide
example : parse_ranges "-" 10 = .error .bareDash := by decide
example : parse_ranges "0-2" 10 = .error (.nonPositive "0-2") := by decide
example : parse_ranges "1,1" 3 = .ok [(1, 1), (1, 1)] := by decide
example : make_split_name "doc" 1 3 (some "x{page}y") = some "xNoney" := by decide
example : make_split_name "doc" 2 2 (some "x{page}y") = some "x2y" := by decide
example : make_split_name "doc" 2 2 none = some "doc_p2.pdf" := by decide
example : make_split_name "doc" 2 5 none = some "doc_p2-5.pdf" := by decide
example : make_split_name "doc" 1 3 (some "{base}_{start}_{end}.pdf") =
    some "doc_1_3.pdf" := by decide
example : pyStem "in/doc.pdf" = "doc" := by decide
example : pyStem "archive.tar.gz" = "archive.tar" := by decide
example : split_cmd "doc.pdf" "1-2,1-2" "out" none none false
    (fun p => p = "doc.pdf") { pages := [10, 11, 12] } =
    .ok [("out/doc_p1-2.pdf", [10, 11]), ("out/doc_p1-2.pdf", [10, 11])] := by decide
example : split_cmd "doc.pdf" "1,2" "out" none none false
    (fun p => p = "doc.pdf" || p = "out/doc_p1.pdf" || p = "out/doc_p2.pdf")
    { pages := [10, 11, 12] } =
    .error (.outputExists ["out/doc_p1.pdf", "out/doc_p2.pdf"]) := by decide
example : merge_cmd ["a.pdf", "b.pdf"] "out.pdf" none false
    (fun p => if p = "a.pdf" then some { pages := [1, 2] }
      else if p = "b.pdf" then some { pages := [3, 4, 5] } else none) =
    .ok { metadata := none, pages := [1, 2, 3, 4, 5] } := by decide
example : merge_cmd ["a.pdf"] "out.pdf" none false
    (fun p => if p = "a.pdf" then
        some { pages := [1], metadata := some [("/Title", none)] } else none) =
    .ok { metadata := some [("/Title", "")], pages := [1] } := by decide
example : merge_cmd ["missing.pdf", "b.pdf"] "out.pdf" none false
    (fun p => if p = "b.pdf" then some { pages := [3] } else none) =
    .error (.fileNotFoundExc "missing.pdf") := by decide

/-! Helper lemmas about the range parser. -/

theorem checkRange_ok {tok : String} {total : Int} {p q : Int × Int}
    (h : checkRange tok total p = .ok q) :
    q = p ∧ 1 ≤ p.1 ∧ p.1 ≤ p.2 ∧ p.2 ≤ total := by
  unfold checkRange at h
  split_ifs at h with h1 h2 h3
  cases h
  push_neg at h1 h3
  exact ⟨rfl, by omega, by omega, by omega⟩

theorem parseToken_ok_bounds {tok : String} {total : Int} {p : Int × Int}
    (h : parseToken tok total = .ok p) :
    1 ≤ p.1 ∧ p.1 ≤ p.2 ∧ p.2 ≤ total := by
  unfold parseToken at h
  split_ifs at h with h0
  cases hr : rawParse tok total with
  | error e => simp only [hr] at h; cases h
  | ok q =>
    simp only [hr] at h
    obtain ⟨rfl, hb⟩ := checkRange_ok h
    exact hb

theorem parseTokens_ok_pointwise (total : Int) :
    ∀ (ts : List String) (rs : List (Int × Int)), parseTokens ts total = .ok rs →
      rs.length = ts.length ∧
      ∀ i (hi : i < ts.length) (hi' : i < rs.length),
        parseToken (ts.get ⟨i, hi⟩) total = .ok (rs.get ⟨i, hi'⟩) := by
  intro ts
  induction ts with
  | nil =>
    intro rs h
    simp only [parseTokens] at h
    cases h
    exact ⟨rfl, fun i hi _ => absurd hi (Nat.not_lt_zero i)⟩
  | cons t ts ih =>
    intro rs h
    cases h1 : parseToken t total with
    | error e => simp only [parseTokens, h1] at h; cases h
    | ok r =>
      cases h2 : parseTokens ts total with
      | error e => simp only [parseTokens, h1, h2] at h; cases h
      | ok rs' =>
        simp only [parseTokens, h1, h2] at h
        cases h
        obtain ⟨hlen, hpt⟩ := ih rs' h2
        refine ⟨by simp [hlen], ?_⟩
        intro i hi hi'
        cases i with
        | zero => simpa using h1
        | succ n => exact hpt n (by simpa using hi) (by simpa using hi')

theorem parseTokens_ok_mem (total : Int) :
    ∀ (ts : List String) (rs : List (Int × Int)), parseTokens ts total = .ok rs →
      ∀ p ∈ rs, 1 ≤ p.1 ∧ p.1 ≤ p.2 ∧ p.2 ≤ total := by
  intro ts
  induction ts with
  | nil =>
    intro rs h
    simp only [parseTokens] at h
    cases h
    intro p hp
    cases hp
  | cons t ts ih =>
    intro rs h
    cases h1 : parseToken t total with
    | error e => simp only [parseTokens, h1] at h; cases h
    | ok r =>
      cases h2 : parseTokens ts total with
      | error e => simp only [parseTokens, h1, h2] at h; cases h
      | ok rs' =>
        simp only [parseTokens, h1, h2] at h
        cases h
        intro p hp
        cases hp with
        | head => exact parseToken_ok_bounds h1
        | tail _ hmem => exact ih rs' h2 p hmem

theorem parse_ranges_ok_inv {spec : String} {total : Int} {rs : List (Int × Int)}
    (h : parse_ranges spec total = .ok rs) :
    parseTokens (pyTokens spec) total = .ok rs := by
  unfold parse_ranges at h
  split_ifs at h with h0
  cases h2 : parseTokens (pyTokens spec) total with
  | error e => simp only [h2] at h; cases h
  | ok rs' =>
    simp only [h2] at h
    split_ifs at h with h3
    exact h

theorem parse_ranges_single {spec t : String} {total : Int} {r : Int × Int}
    (hts : pyTokens spec = [t]) (h : parseToken t total = .ok r) :
    parse_ranges spec total = .ok [r] := by
  simp [parse_ranges, hts, parseTokens, h]

/-- C1: for every spec string and every totalPages at least 1 on which
`parse_ranges` succeeds, every returned pair (start, end) satisfies
`1 <= start <= end <= totalPages`, and the returned list has exactly one
pair per non-empty token of the input, in token order and multiplicity
(token i parses to pair i; no reordering, de-duplication or merging). -/
theorem c1_parse_ranges_sound (spec : String) (total : Int) (rs : List (Int × Int))
    (htotal : 1 ≤ total) (h : parse_ranges spec total = .ok rs) :
    (∀ p ∈ rs, 1 ≤ p.1 ∧ p.1 ≤ p.2 ∧ p.2 ≤ total) ∧
    rs.length = (pyTokens spec).length ∧
    ∀ i (hi : i < (pyTokens spec).length) (hi' : i < rs.length),
      parseToken ((pyTokens spec).get ⟨i, hi⟩) total = .ok (rs.get ⟨i, hi'⟩) := by
  have h2 := parse_ranges_ok_inv h
  obtain ⟨hlen, hpt⟩ := parseTokens_ok_pointwise total (pyTokens spec) rs h2
  exact ⟨parseTokens_ok_mem total (pyTokens spec) rs h2, hlen, hpt⟩

theorem c1_parse_ranges_sound_witness :
    [((1 : Int), (3 : Int)), (7, 7), (9, 10)].length = (pyTokens "1-3,7,9-").length :=
  (c1_parse_ranges_sound "1-3,7,9-" 10 [(1, 3), (7, 7), (9, 10)]
    (by decide) (by decide)).2.1

theorem checkRange_ok_of_bounds {tok : String} {total : Int} {s e : Int}
    (h1 : 1 ≤ s) (h2 : s ≤ e) (h3 : e ≤ total) :
    checkRange tok total (s, e) = .ok (s, e) := by
  unfold checkRange
  split_ifs with g1 g2 g3
  · rcases g1 with g | g <;> omega
  · omega
  · rcases g3 with g | g <;> omega
  · rfl

/-- C2: the open-start shorthand `-B` parses as the range (1, B) and the
open-end shorthand `A-` parses as (A, totalPages) — stated for every token
of those shapes whose numeric part converts and is in bounds — and in
particular `parse_ranges "1-3,7,9-" 10 = [(1,3),(7,7),(9,10)]`,
`parse_ranges "-3" 10 = [(1,3)]` and `parse_ranges "5-" 10 = [(5,10)]`. -/
theorem c2_open_shorthands :
    (∀ (tok : String) (total e : Int), containsDash tok = true → startsDash tok = true →
      tok ≠ "-" → pyInt (dropFirst tok) = some e → 1 ≤ e → e ≤ total →
      parseToken tok total = .ok (1, e)) ∧
    (∀ (tok : String) (total s : Int), containsDash tok = true → startsDash tok = false →
      endsDash tok = true → tok ≠ "-" → pyInt (dropLast tok) = some s → 1 ≤ s → s ≤ total →
      parseToken tok total = .ok (s, total)) ∧
    parse_ranges "1-3,7,9-" 10 = .ok [(1, 3), (7, 7), (9, 10)] ∧
    parse_ranges "-3" 10 = .ok [(1, 3)] ∧
    parse_ranges "5-" 10 = .ok [(5, 10)] := by
  refine ⟨?_, ?_, by decide, by decide, by decide⟩
  · intro tok total e hc hs hne hpy h1 he
    unfold parseToken rawParse
    rw [if_neg hne]
    simp only [hc, hs, if_true, hpy]
    exact checkRange_ok_of_bounds (by omega) h1 he
  · intro tok total s hc hs hend hne hpy h1 hs2
    unfold parseToken rawParse
    rw [if_neg hne]
    simp only [hc, hs, hend, if_true, Bool.false_eq_true, if_false, hpy]
    exact checkRange_ok_of_bounds h1 hs2 le_rfl

theorem c2_open_shorthands_witness : parseToken "-4" 9 = .ok (1, 4) :=
  c2_open_shorthands.1 "-4" 9 4 (by decide) (by decide) (by decide)
    (by decide) (by decide) (by decide)

/-- C3: for every token the four validation checks run in the fixed order
non-numeric, non-positive, inverted, out-of-bounds, each failing with its
own error (an earlier check's failure is reported even when a later check
would also fail); a bare dash always fails with its dedicated error, and a
spec that is empty or resolves to zero tokens fails with the empty-spec
error.  `rawParse` is the numeric-extraction stage, so a `rawParse`
outcome of `invalidToken` is exactly a non-numeric token. -/
theorem c3_validation_order :
    (∀ total : Int, parseToken "-" total = .error .bareDash) ∧
    (∀ (tok : String) (total : Int), tok ≠ "-" →
      rawParse tok total = .error (.invalidToken tok) →
      parseToken tok total = .error (.invalidToken tok)) ∧
    (∀ (tok : String) (total s e : Int), tok ≠ "-" →
      rawParse tok total = .ok (s, e) → s ≤ 0 ∨ e ≤ 0 →
      parseToken tok total = .error (.nonPositive tok)) ∧
    (∀ (tok : String) (total s e : Int), tok ≠ "-" →
      rawParse tok total = .ok (s, e) → 1 ≤ s → 1 ≤ e → e < s →
      parseToken tok total = .error (.inverted tok)) ∧
    (∀ (tok : String) (total s e : Int), tok ≠ "-" →
      rawParse tok total = .ok (s, e) → 1 ≤ s → 1 ≤ e → s ≤ e →
      (total < s ∨ total < e) →
      parseToken tok total = .error (.outOfBounds tok)) ∧
    (∀ (spec : String) (total : Int), pyTokens spec = [] →
      parse_ranges spec total = .error .emptySpec) ∧
    pyTokens "" = [] ∧ pyTokens " , ,," = [] := by
  refine ⟨?_, ?_, ?_, ?_, ?_, ?_, by decide, by decide⟩
  · intro total
    rfl
  · intro tok total hne hr
    unfold parseToken
    rw [if_neg hne, hr]
  · intro tok total s e hne hr hle
    unfold parseToken
    rw [if_neg hne, hr]
    show checkRange tok total (s, e) = _
    unfold checkRange
    rw [if_pos hle]
  · intro tok total s e hne hr h1 h2 hlt
    unfold parseToken
    rw [if_neg hne, hr]
    show checkRange tok total (s, e) = _
    unfold checkRange
    rw [if_neg (by omega), if_pos (by omega)]
  · intro tok total s e hne hr h1 h2 hle hout
    unfold parseToken
    rw [if_neg hne, hr]
    show checkRange tok total (s, e) = _
    unfold checkRange
    rw [if_neg (by omega), if_neg (by omega), if_pos (by omega)]
  · intro spec total h0
    unfold parse_ranges
    rw [if_pos h0]

theorem c3_validation_order_witness : parseToken "0-2" 10 = .error (.nonPositive "0-2") :=
  c3_validation_order.2.2.1 "0-2" 10 0 2 (by decide) (by decide) (by decide)

/-- C9: parse_ranges accepts some tokens outside the stated grammar — a
token with whitespace around the dash such as "1 - 3", and a token with a
leading plus sign such as "+5" — returning (1,3) and (5,5) respectively
rather than a non-numeric-token failure, because Python `int` strips
surrounding whitespace and accepts an explicit sign. -/
theorem c9_lenient_tokens (total : Int) :
    (3 ≤ total → parse_ranges "1 - 3" total = .ok [(1, 3)]) ∧
    (5 ≤ total → parse_ranges "+5" total = .ok [(5, 5)]) := by
  constructor
  · intro h
    have hpt : parseToken "1 - 3" total = .ok (1, 3) := by
      show checkRange "1 - 3" total (1, 3) = _
      exact checkRange_ok_of_bounds (by omega) (by omega) h
    exact parse_ranges_single (by decide) hpt
  · intro h
    have hpt : parseToken "+5" total = .ok (5, 5) := by
      show checkRange "+5" total (5, 5) = _
      exact checkRange_ok_of_bounds (by omega) (by omega) h
    exact parse_ranges_single (by decide) hpt

theorem c9_lenient_tokens_witness :
    parse_ranges "1 - 3" 10 = .ok [(1, 3)] ∧ parse_ranges "+5" 10 = .ok [(5, 5)] :=
  ⟨(c9_lenient_tokens 10).1 (by decide), (c9_lenient_tokens 10).2 (by decide)⟩

/-! Helper lemmas about the split and merge flows. -/

theorem planNames_ok_pointwise (base : String) (pattern : Option String) :
    ∀ (rsl : List (Int × Int)) (names : List String),
      planNames base pattern rsl = some names →
      names.length = rsl.length ∧
      ∀ i (hi : i < rsl.length) (hi' : i < names.length),
        make_split_name base (rsl.get ⟨i, hi⟩).1 (rsl.get ⟨i, hi⟩).2 pattern =
          some (names.get ⟨i, hi'⟩) := by
  intro rsl
  induction rsl with
  | nil =>
    intro names h
    simp only [planNames] at h
    cases h
    exact ⟨rfl, fun i hi _ => absurd hi (Nat.not_lt_zero i)⟩
  | cons r rs ih =>
    intro names h
    cases h1 : make_split_name base r.1 r.2 pattern with
    | none => simp only [planNames, h1] at h; cases h
    | some n =>
      cases h2 : planNames base pattern rs with
      | none => simp only [planNames, h1, h2] at h; cases h
      | some ns =>
        simp only [planNames, h1, h2] at h
        cases h
        obtain ⟨hlen, hpt⟩ := ih ns h2
        refine ⟨by simp [hlen], ?_⟩
        intro i hi hi'
        cases i with
        | zero => simpa using h1
        | succ m => exact hpt m (by simpa using hi) (by simpa using hi')

theorem openMergeInput_ok {fs : String → Option PdfDoc} {password : Option String}
    {p : String} {d : PdfDoc} (h : openMergeInput fs password p = .ok d) :
    fs p = some d := by
  unfold openMergeInput at h
  cases hf : fs p with
  | none => simp only [hf] at h; cases h
  | some d' =>
    simp only [hf] at h
    split_ifs at h <;> (cases h; rfl)

theorem openMergeInputs_ok_pointwise (fs : String → Option PdfDoc) (password : Option String) :
    ∀ (ps : List String) (ds : List PdfDoc), openMergeInputs fs password ps = .ok ds →
      ds.length = ps.length ∧
      ∀ i (hi : i < ps.length) (hi' : i < ds.length),
        fs (ps.get ⟨i, hi⟩) = some (ds.get ⟨i, hi'⟩) := by
  intro ps
  induction ps with
  | nil =>
    intro ds h
    simp only [openMergeInputs] at h
    cases h
    exact ⟨rfl, fun i hi _ => absurd hi (Nat.not_lt_zero i)⟩
  | cons p ps ih =>
    intro ds h
    cases h1 : openMergeInput fs password p with
    | error e => simp only [openMergeInputs, h1] at h; cases h
    | ok d =>
      cases h2 : openMergeInputs fs password ps with
      | error e => simp only [openMergeInputs, h1, h2] at h; cases h
      | ok ds' =>
        simp only [openMergeInputs, h1, h2] at h
        cases h
        obtain ⟨hlen, hpt⟩ := ih ds' h2
        refine ⟨by simp [hlen], ?_⟩
        intro i hi hi'
        cases i with
        | zero => simpa using openMergeInput_ok h1
        | succ m => exact hpt m (by simpa using hi) (by simpa using hi')

theorem foldl_append_singleton (l acc : List Nat) :
    l.foldl (fun a pg => a ++ [pg]) acc = acc ++ l := by
  induction l generalizing acc with
  | nil => simp
  | cons x xs ih => rw [List.foldl_cons, ih, List.append_assoc]; rfl

theorem mergedPages_eq_join (ds : List PdfDoc) :
    mergedPages ds = (ds.map PdfDoc.pages).flatten := by
  suffices h : ∀ acc, ds.foldl
      (fun acc r => r.pages.foldl (fun acc2 pg => acc2 ++ [pg]) acc) acc =
      acc ++ (ds.map PdfDoc.pages).flatten by
    simpa [mergedPages] using h []
  induction ds with
  | nil => intro acc; simp
  | cons d ds ih =>
    intro acc
    rw [List.foldl_cons, foldl_append_singleton, ih, List.append_assoc]
    simp

theorem merge_cmd_ok_inv {inputs : List String} {output : String}
    {password : Option String} {overwrite : Bool} {fs : String → Option PdfDoc}
    {r : MergeResult} (h : merge_cmd inputs output password overwrite fs = .ok r) :
    ∃ ds, openMergeInputs fs password inputs = .ok ds ∧
      r = { metadata := mergeMetadata ds, pages := mergedPages ds } := by
  unfold merge_cmd at h
  split_ifs at h with h0
  cases hds : openMergeInputs fs password inputs with
  | error e => simp only [hds] at h; cases h
  | ok ds =>
    simp only [hds] at h
    cases h
    exact ⟨ds, rfl, rfl⟩

theorem applyWrites_last (fs0 : String → Option (List Nat))
    (ws : List (String × List Nat)) (p : String) (c : List Nat) :
    applyWrites fs0 (ws ++ [(p, c)]) p = some c := by
  unfold applyWrites
  rw [List.foldl_append]
  simp

theorem split_cmd_reach (input rangesSpec outdir : String)
    (password namePattern : Option String) (overwrite : Bool)
    (fs : String → Bool) (doc : PdfDoc)
    (ranges : List (Int × Int)) (names : List String)
    (hin : fs input = true)
    (hp1 : ¬(doc.encrypted = true ∧ pyFalsyStr password = true))
    (hp2 : ¬(doc.encrypted = true ∧ password ≠ doc.pwd))
    (hpr : parse_ranges rangesSpec (Int.ofNat doc.pages.length) = .ok ranges)
    (hpn : planNames (pyStem input) namePattern ranges = some names) :
    split_cmd input rangesSpec outdir password namePattern overwrite fs doc =
      if (names.map (plannedPath outdir)).filter fs ≠ [] ∧ ¬overwrite
      then .error (.outputExists ((names.map (plannedPath outdir)).filter fs))
      else .ok (List.zip (names.map (plannedPath outdir))
        (ranges.map (fun r => pageSlice doc.pages r.1 r.2))) := by
  unfold split_cmd
  rw [if_neg (by simp [hin]), if_neg hp1, if_neg hp2]
  simp only [hpr, hpn]

/-- C4: in the split flow with overwrite false, if any planned target path
already exists on disk when planning finishes, the run fails with the
overwrite-refusal error whose report lists every colliding path (the whole
plan filtered by existence, not only the first collision), and zero output
files are written by that invocation — the result is an error, and in the
model writes happen only on success, mirroring the source where the clash
scan precedes the write loop. -/
theorem c4_split_overwrite_guard
    (input rangesSpec outdir : String) (password namePattern : Option String)
    (fs : String → Bool) (doc : PdfDoc)
    (ranges : List (Int × Int)) (names : List String)
    (hin : fs input = true)
    (hp1 : ¬(doc.encrypted = true ∧ pyFalsyStr password = true))
    (hp2 : ¬(doc.encrypted = true ∧ password ≠ doc.pwd))
    (hpr : parse_ranges rangesSpec (Int.ofNat doc.pages.length) = .ok ranges)
    (hpn : planNames (pyStem input) namePattern ranges = some names)
    (hclash : (names.map (plannedPath outdir)).filter fs ≠ []) :
    split_cmd input rangesSpec outdir password namePattern false fs doc =
      .error (.outputExists ((names.map (plannedPath outdir)).filter fs)) ∧
    (∀ p, p ∈ names.map (plannedPath outdir) → fs p = true →
      p ∈ (names.map (plannedPath outdir)).filter fs) ∧
    (split_cmd input rangesSpec outdir password namePattern false fs doc).toOption = none := by
  have h1 : split_cmd input rangesSpec outdir password namePattern false fs doc =
      .error (.outputExists ((names.map (plannedPath outdir)).filter fs)) := by
    rw [split_cmd_reach input rangesSpec outdir password namePattern false fs doc
      ranges names hin hp1 hp2 hpr hpn]
    rw [if_pos ⟨hclash, by decide⟩]
  refine ⟨h1, ?_, by rw [h1]; rfl⟩
  intro p hp hfs
  rw [List.mem_filter]
  exact ⟨hp, hfs⟩

theorem c4_split_overwrite_guard_witness :
    split_cmd "doc.pdf" "1,2" "out" none none false
      (fun p => p = "doc.pdf" ∨ p = "out/doc_p1.pdf") { pages := [10, 11, 12] } =
      .error (.outputExists ["out/doc_p1.pdf"]) :=
  (c4_split_overwrite_guard "doc.pdf" "1,2" "out" none none
    (fun p => p = "doc.pdf" ∨ p = "out/doc_p1.pdf") { pages := [10, 11, 12] }
    [(1, 1), (2, 2)] ["doc_p1.pdf", "doc_p2.pdf"]
    (by decide) (by decide) (by decide) (by decide) (by decide) (by decide)).1

/-- C10: the overwrite guard filters the plan only against paths existing
at planning time, never against duplicates within the plan: with equal
ranges the planned names coincide (filename planning is a function of the
range), and when no planned path exists the run with overwrite false
succeeds and performs one write per range in plan order — duplicated paths
included — with a later write to a path replacing an earlier one in the
resulting filesystem contents. -/
theorem c10_duplicates_not_collisions
    (input rangesSpec outdir : String) (password namePattern : Option String)
    (fs : String → Bool) (doc : PdfDoc)
    (ranges : List (Int × Int)) (names : List String)
    (hin : fs input = true)
    (hp1 : ¬(doc.encrypted = true ∧ pyFalsyStr password = true))
    (hp2 : ¬(doc.encrypted = true ∧ password ≠ doc.pwd))
    (hpr : parse_ranges rangesSpec (Int.ofNat doc.pages.length) = .ok ranges)
    (hpn : planNames (pyStem input) namePattern ranges = some names)
    (hnone : (names.map (plannedPath outdir)).filter fs = []) :
    split_cmd input rangesSpec outdir password namePattern false fs doc =
      .ok (List.zip (names.map (plannedPath outdir))
        (ranges.map (fun r => pageSlice doc.pages r.1 r.2))) ∧
    (∀ i j (hi : i < ranges.length) (hj : j < ranges.length)
        (hi' : i < names.length) (hj' : j < names.length),
      ranges.get ⟨i, hi⟩ = ranges.get ⟨j, hj⟩ →
      names.get ⟨i, hi'⟩ = names.get ⟨j, hj'⟩) ∧
    (∀ (fs0 : String → Option (List Nat)) (ws : List (String × List Nat))
        (p : String) (c : List Nat),
      applyWrites fs0 (ws ++ [(p, c)]) p = some c) := by
  refine ⟨?_, ?_, fun fs0 ws p c => applyWrites_last fs0 ws p c⟩
  · rw [split_cmd_reach input rangesSpec outdir password namePattern false fs doc
      ranges names hin hp1 hp2 hpr hpn]
    rw [if_neg (fun hcon => hcon.1 hnone)]
  · obtain ⟨hlen, hpt⟩ := planNames_ok_pointwise (pyStem input) namePattern ranges names hpn
    intro i j hi hj hi' hj' heq
    have a1 := hpt i hi hi'
    have a2 := hpt j hj hj'
    rw [heq] at a1
    exact Option.some.inj (a1.symm.trans a2)

theorem c10_duplicates_not_collisions_witness :
    split_cmd "doc.pdf" "1-2,1-2" "out" none none false
      (fun p => p = "doc.pdf") { pages := [10, 11, 12] } =
      .ok [("out/doc_p1-2.pdf", [10, 11]), ("out/doc_p1-2.pdf", [10, 11])] :=
  (c10_duplicates_not_collisions "doc.pdf" "1-2,1-2" "out" none none
    (fun p => p = "doc.pdf") { pages := [10, 11, 12] }
    [(1, 2), (1, 2)] ["doc_p1-2.pdf", "doc_p1-2.pdf"]
    (by decide) (by decide) (by decide) (by decide) (by decide) (by decide)).1

/-- C7: a successful merge of N inputs produces exactly the concatenation
of all pages of all inputs: the output page list is the join of the opened
documents' page lists in input order (grouped by input, each input's pages
in native order), and the output page count is the sum of the input page
counts. -/
theorem c7_merge_concatenates
    (inputs : List String) (output : String) (password : Option String)
    (overwrite : Bool) (fs : String → Option PdfDoc) (r : MergeResult) (ds : List PdfDoc)
    (h : merge_cmd inputs output password overwrite fs = .ok r)
    (hds : openMergeInputs fs password inputs = .ok ds) :
    r.pages = (ds.map PdfDoc.pages).flatten ∧
    r.pages.length = (ds.map (fun d => d.pages.length)).sum ∧
    ds.length = inputs.length ∧
    (∀ i (hi : i < inputs.length) (hi' : i < ds.length),
      fs (inputs.get ⟨i, hi⟩) = some (ds.get ⟨i, hi'⟩)) := by
  obtain ⟨ds', hds', hr⟩ := merge_cmd_ok_inv h
  rw [hds'] at hds
  cases hds
  obtain ⟨hlen, hpt⟩ := openMergeInputs_ok_pointwise fs password inputs ds hds'
  subst hr
  refine ⟨mergedPages_eq_join ds, ?_, hlen, hpt⟩
  simp only [mergedPages_eq_join ds, List.length_flatten, List.map_map]
  rfl

theorem c7_merge_concatenates_witness :
    ({ metadata := none, pages := [1, 2, 3, 4, 5] } : MergeResult).pages =
      (([{ pages := [1, 2] }, { pages := [3, 4, 5] }] : List PdfDoc).map PdfDoc.pages).flatten :=
  (c7_merge_concatenates ["a.pdf", "b.pdf"] "out.pdf" none false
    (fun p => if p = "a.pdf" then some { pages := [1, 2] }
      else if p = "b.pdf" then some { pages := [3, 4, 5] } else none)
    { metadata := none, pages := [1, 2, 3, 4, 5] }
    [{ pages := [1, 2] }, { pages := [3, 4, 5] }]
    (by decide) (by decide)).1

theorem mdEntries_mem {items : List (String × Option String)} {k v : String} :
    (k, v) ∈ mdEntries items ↔
      ∃ v0, (k, v0) ∈ items ∧ k ≠ "" ∧ startsSlash k = true ∧ v = v0.getD "" := by
  unfold mdEntries
  rw [List.mem_filterMap]
  constructor
  · rintro ⟨⟨a, b⟩, hmem, hf⟩
    by_cases hq : a ≠ "" ∧ startsSlash a = true
    · rw [if_pos hq] at hf
      simp only [Option.some.injEq, Prod.mk.injEq] at hf
      obtain ⟨rfl, rfl⟩ := hf
      exact ⟨b, hmem, hq.1, hq.2, rfl⟩
    · rw [if_neg hq] at hf
      cases hf
  · rintro ⟨v0, hmem, h1, h2, rfl⟩
    exact ⟨(k, v0), hmem, by rw [if_pos ⟨h1, h2⟩]⟩

theorem mergeMetadata_cons_some {d : PdfDoc} {ds : List PdfDoc}
    {items : List (String × Option String)} (hd : d.metadata = some items) :
    mergeMetadata (d :: ds) =
      if items = [] then none
      else if mdEntries items = [] then none else some (mdEntries items) := by
  simp only [mergeMetadata, hd]

/-- C5 counterexample: a first input whose only metadata key has a null
value.  The claim says null-valued keys are skipped, which would leave no
qualifying entry and hence no metadata block; the code instead writes the
key with the empty string substituted for the null value, so the output
carries a metadata block mapping the key to "". -/
theorem c5_null_value_counterexample :
    merge_cmd ["a.pdf"] "out.pdf" none false
      (fun p => if p = "a.pdf" then
        some { pages := [1], metadata := some [("/Title", none)] } else none) =
      .ok { metadata := some [("/Title", "")], pages := [1] } ∧
    some [("/Title", "")] ≠ (none : Option (List (String × String))) := by
  exact ⟨by decide, by decide⟩

/-- C5 amended: merge output metadata is computed only from the first
input; every key of the first input that is present, non-empty and starts
with the namespace prefix "/" is copied — a null value being replaced by
the empty string rather than skipped — and the output has no metadata
block when the first input has no metadata (or no key qualifies),
regardless of any later input's metadata. -/
theorem c5_first_input_metadata :
    (∀ (inputs : List String) (output : String) (password : Option String)
        (overwrite : Bool) (fs : String → Option PdfDoc) (r : MergeResult)
        (ds : List PdfDoc),
      merge_cmd inputs output password overwrite fs = .ok r →
      openMergeInputs fs password inputs = .ok ds →
      r.metadata = mergeMetadata ds) ∧
    (∀ (d : PdfDoc) (ds ds' : List PdfDoc),
      mergeMetadata (d :: ds) = mergeMetadata (d :: ds')) ∧
    (∀ (d : PdfDoc) (ds : List PdfDoc), d.metadata = none →
      mergeMetadata (d :: ds) = none) ∧
    (∀ (d : PdfDoc) (ds : List PdfDoc) (items : List (String × Option String))
        (md : List (String × String)), d.metadata = some items →
      mergeMetadata (d :: ds) = some md →
      ∀ k v, (k, v) ∈ md →
        ∃ v0, (k, v0) ∈ items ∧ k ≠ "" ∧ startsSlash k = true ∧ v = v0.getD "") ∧
    (∀ (d : PdfDoc) (ds : List PdfDoc) (items : List (String × Option String))
        (k : String) (v0 : Option String), d.metadata = some items →
      (k, v0) ∈ items → k ≠ "" → startsSlash k = true →
      ∃ md, mergeMetadata (d :: ds) = some md ∧ (k, v0.getD "") ∈ md) := by
  refine ⟨?_, ?_, ?_, ?_, ?_⟩
  · intro inputs output password overwrite fs r ds h hds
    obtain ⟨ds', hds', hr⟩ := merge_cmd_ok_inv h
    rw [hds'] at hds
    cases hds
    subst hr
    rfl
  · intro d ds ds'
    rfl
  · intro d ds hd
    simp only [mergeMetadata, hd]
  · intro d ds items md hd hmd k v hkv
    rw [mergeMetadata_cons_some hd] at hmd
    split_ifs at hmd with g1 g2
    cases hmd
    exact mdEntries_mem.mp hkv
  · intro d ds items k v0 hd hmem hk1 hk2
    have hent : (k, v0.getD "") ∈ mdEntries items :=
      mdEntries_mem.mpr ⟨v0, hmem, hk1, hk2, rfl⟩
    refine ⟨mdEntries items, ?_, hent⟩
    rw [mergeMetadata_cons_some hd,
      if_neg (List.ne_nil_of_mem hmem), if_neg (List.ne_nil_of_mem hent)]

theorem c5_first_input_metadata_witness :
    mergeMetadata [({ pages := [1] } : PdfDoc)] = none :=
  c5_first_input_metadata.2.2.1 { pages := [1] } [] rfl

/-- C6: the claim (and spec) require merge to fail with the classified
InputNotFound error kind naming the missing path; the code does not —
`merge_cmd` opens each input with a bare `open(path, "rb")` and never calls
`require_exists` or `open_reader` (both defined for exactly this purpose
and used by the split flow), so a missing input raises an uncaught
`FileNotFoundError` (traceback, exit code 1) instead of the classified
report (exit code 2).  No output is written either way.  The third
conjunct shows the sibling split flow does produce the classified error,
evidencing that the spec states the intent and `merge_cmd` is the slip. -/
theorem c6_merge_missing_input_unclassified :
    merge_cmd ["missing.pdf", "b.pdf"] "out.pdf" none false
      (fun p => if p = "b.pdf" then some { pages := [3] } else none) =
      .error (.fileNotFoundExc "missing.pdf") ∧
    (merge_cmd ["missing.pdf", "b.pdf"] "out.pdf" none false
      (fun p => if p = "b.pdf" then some { pages := [3] } else none)).toOption = none ∧
    split_cmd "missing.pdf" "1" "out" none none false
      (fun _ => false) { pages := [1] } = .error (.inputNotFound "missing.pdf") := by
  exact ⟨by decide, by decide, by decide⟩

theorem strAppend_assoc (a b c : String) : a ++ b ++ c = a ++ (b ++ c) := by
  show String.mk (a.data ++ b.data ++ c.data) = String.mk (a.data ++ (b.data ++ c.data))
  rw [List.append_assoc]

theorem append_mk_nil (out : String) : out ++ String.mk [] = out := by
  show String.mk (out.data ++ []) = out
  rw [List.append_nil]

theorem push_append_mk (out : String) (c : Char) (cs : List Char) :
    out.push c ++ String.mk cs = out ++ String.mk (c :: cs) := by
  show String.mk (out.data ++ [c] ++ cs) = String.mk (out.data ++ (c :: cs))
  rw [List.append_assoc]
  rfl

theorem strToList_append (a b : String) : (a ++ b).toList = a.toList ++ b.toList := rfl

theorem fmtStep_lit (env : List (String × String)) (out : String) (c : Char)
    (h1 : c ≠ '{') (h2 : c ≠ '}') :
    fmtStep env (some (out, .normal)) c = some (out.push c, .normal) := by
  simp only [fmtStep]
  rw [if_neg h1, if_neg h2]

theorem fmtFold_lit (env : List (String × String)) :
    ∀ (cs : List Char), (∀ c ∈ cs, c ≠ '{' ∧ c ≠ '}') → ∀ (out : String),
      cs.foldl (fmtStep env) (some (out, .normal)) = some (out ++ String.mk cs, .normal) := by
  intro cs
  induction cs with
  | nil =>
    intro h out
    rw [List.foldl_nil, append_mk_nil]
  | cons c cs ih =>
    intro h out
    have hc := h c (List.mem_cons_self c cs)
    rw [List.foldl_cons, fmtStep_lit env out c hc.1 hc.2,
      ih (fun x hx => h x (List.mem_cons_of_mem c hx)) (out.push c), push_append_mk]

theorem fmtFold_inField (env : List (String × String)) :
    ∀ (cs : List Char), (∀ c ∈ cs, c ≠ '}') → ∀ (out : String) (acc : List Char),
      cs.foldl (fmtStep env) (some (out, .inField acc)) =
        some (out, .inField (cs.reverse ++ acc)) := by
  intro cs
  induction cs with
  | nil => intro h out acc; simp
  | cons c cs ih =>
    intro h out acc
    have hstep : fmtStep env (some (out, .inField acc)) c =
        some (out, .inField (c :: acc)) := by
      simp only [fmtStep]
      rw [if_neg (h c (List.mem_cons_self c cs))]
    rw [List.foldl_cons, hstep,
      ih (fun x hx => h x (List.mem_cons_of_mem c hx)) out (c :: acc)]
    simp [List.append_assoc]

theorem fmtFold_field (env : List (String × String)) (nm v : String)
    (hnm : env.lookup nm = some v)
    (hfree : ∀ c ∈ nm.toList, c ≠ '{' ∧ c ≠ '}')
    (hne : nm.toList ≠ []) (out : String) :
    ('{' :: nm.toList ++ ['}']).foldl (fmtStep env) (some (out, .normal)) =
      some (out ++ v, .normal) := by
  have h1 : fmtStep env (some (out, .normal)) '{' = some (out, .afterLbrace) := rfl
  rw [List.foldl_append,
    show List.foldl (fmtStep env) (some (out, FmtMode.normal)) ('{' :: nm.toList) =
      List.foldl (fmtStep env) (some (out, FmtMode.afterLbrace)) nm.toList from by
        rw [List.foldl_cons, h1]]
  cases hcs : nm.toList with
  | nil => exact absurd hcs hne
  | cons c rest =>
    have hc := hfree c (by rw [hcs]; exact List.mem_cons_self c rest)
    have h2 : fmtStep env (some (out, .afterLbrace)) c = some (out, .inField [c]) := by
      simp only [fmtStep]
      rw [if_neg hc.1, if_neg hc.2]
    have hrest : ∀ x ∈ rest, x ≠ '}' := by
      intro x hx
      exact (hfree x (by rw [hcs]; exact List.mem_cons_of_mem c hx)).2
    have hrev : String.mk ((rest.reverse ++ [c]).reverse) = nm := by
      rw [show (rest.reverse ++ [c]).reverse = c :: rest by simp, ← hcs]
      rfl
    have hlk : env.lookup (String.mk ((rest.reverse ++ [c]).reverse)) = some v := by
      rw [hrev]
      exact hnm
    have hclose : fmtStep env (some (out, .inField (rest.reverse ++ [c]))) '}' =
        some (out ++ v, .normal) := by
      show (match env.lookup (String.mk ((rest.reverse ++ [c]).reverse)) with
        | some v2 => some (out ++ v2, FmtMode.normal)
        | none => none) = some (out ++ v, FmtMode.normal)
      rw [hlk]
    have hinner : List.foldl (fmtStep env) (some (out, FmtMode.afterLbrace)) (c :: rest) =
        some (out, FmtMode.inField (rest.reverse ++ [c])) := by
      rw [List.foldl_cons, h2, fmtFold_inField env rest hrest out [c]]
    rw [hinner, List.foldl_cons, hclose, List.foldl_nil]

theorem splitEnv_base (b : String) (s e : Int) :
    (splitEnv b s e).lookup "base" = some b := rfl

theorem splitEnv_start (b : String) (s e : Int) :
    (splitEnv b s e).lookup "start" = some (toString s) := rfl

theorem splitEnv_end (b : String) (s e : Int) :
    (splitEnv b s e).lookup "end" = some (toString e) := rfl

theorem splitEnv_page (b : String) (s e : Int) :
    (splitEnv b s e).lookup "page" = some (if s = e then toString s else "None") := rfl

theorem fmtFold_template (b : String) (s e : Int) :
    ∀ (ps : List PatPiece), patLitsOk ps = true → ∀ (out : String),
      (patText ps).toList.foldl (fmtStep (splitEnv b s e)) (some (out, .normal)) =
        some (out ++ patSubst b s e ps, .normal) := by
  intro ps
  induction ps with
  | nil =>
    intro hok out
    show List.foldl _ (some (out, FmtMode.normal)) [] = some (out ++ "", FmtMode.normal)
    rw [List.foldl_nil, append_mk_nil]
  | cons p ps ih =>
    cases p with
    | lit t =>
      intro hok out
      simp only [patLitsOk, Bool.and_eq_true] at hok
      have hfree : ∀ c ∈ t.toList, c ≠ '{' ∧ c ≠ '}' := by
        intro c hcmem
        have := List.all_eq_true.mp hok.1 c hcmem
        simp only [Bool.and_eq_true, bne_iff_ne] at this
        exact this
      show ((t ++ patText ps).toList).foldl _ _ = some (out ++ (t ++ patSubst b s e ps), _)
      rw [strToList_append, List.foldl_append]
      have hlit := fmtFold_lit (splitEnv b s e) t.toList hfree out
      have hmkt : out ++ String.mk t.toList = out ++ t := rfl
      rw [hlit, hmkt, ih hok.2 (out ++ t), strAppend_assoc]
    | fldBase =>
      intro hok out
      simp only [patLitsOk] at hok
      show (("{base}" ++ patText ps).toList).foldl _ _ =
        some (out ++ (b ++ patSubst b s e ps), _)
      rw [strToList_append]
      have hsplit : ("{base}" : String).toList = '{' :: ("base" : String).toList ++ ['}'] := rfl
      rw [hsplit, List.foldl_append,
        fmtFold_field (splitEnv b s e) "base" b (splitEnv_base b s e) (by decide) (by decide) out,
        ih hok (out ++ b), strAppend_assoc]
    | fldStart =>
      intro hok out
      simp only [patLitsOk] at hok
      show (("{start}" ++ patText ps).toList).foldl _ _ =
        some (out ++ (toString s ++ patSubst b s e ps), _)
      rw [strToList_append]
      have hsplit : ("{start}" : String).toList = '{' :: ("start" : String).toList ++ ['}'] := rfl
      rw [hsplit, List.foldl_append,
        fmtFold_field (splitEnv b s e) "start" (toString s) (splitEnv_start b s e)
          (by decide) (by decide) out,
        ih hok (out ++ toString s), strAppend_assoc]
    | fldEnd =>
      intro hok out
      simp only [patLitsOk] at hok
      show (("{end}" ++ patText ps).toList).foldl _ _ =
        some (out ++ (toString e ++ patSubst b s e ps), _)
      rw [strToList_append]
      have hsplit : ("{end}" : String).toList = '{' :: ("end" : String).toList ++ ['}'] := rfl
      rw [hsplit, List.foldl_append,
        fmtFold_field (splitEnv b s e) "end" (toString e) (splitEnv_end b s e)
          (by decide) (by decide) out,
        ih hok (out ++ toString e), strAppend_assoc]
    | fldPage =>
      intro hok out
      simp only [patLitsOk] at hok
      show (("{page}" ++ patText ps).toList).foldl _ _ =
        some (out ++ ((if s = e then toString s else "None") ++ patSubst b s e ps), _)
      rw [strToList_append]
      have hsplit : ("{page}" : String).toList = '{' :: ("page" : String).toList ++ ['}'] := rfl
      rw [hsplit, List.foldl_append,
        fmtFold_field (splitEnv b s e) "page" (if s = e then toString s else "None")
          (splitEnv_page b s e) (by decide) (by decide) out,
        ih hok (out ++ (if s = e then toString s else "None")), strAppend_assoc]

theorem pyFormat_template (b : String) (s e : Int) (ps : List PatPiece)
    (hok : patLitsOk ps = true) :
    pyFormat (patText ps) (splitEnv b s e) = some (patSubst b s e ps) := by
  unfold pyFormat
  rw [fmtFold_template b s e ps hok ""]
  rfl

/-- C8 counterexample: with a pattern using `{page}` on the multi-page
range (1, 3), the claim says `{page}` is left undefined or empty (which
would yield "xy" or a failure); the code passes `page=None` to
`str.format`, which renders the string "None". -/
theorem c8_page_none_counterexample :
    make_split_name "doc" 1 3 (some "x{page}y") = some "xNoney" ∧
    "xNoney" ≠ "xy" := by
  exact ⟨by decide, by decide⟩

/-- C8 amended: with no pattern the split filename is
`{base}_p{start}.pdf` for single-page ranges and `{base}_p{start}-{end}.pdf`
for multi-page ranges; with a pattern, for every base name, every range and
every pattern in the grammar (literal text interleaved with the four
fields, stated via templates), `{base}`, `{start}` and `{end}` are
substituted by the base name and the range bounds, and `{page}` is
substituted by start when start equals end and by the string "None"
otherwise — never left undefined or empty. -/
theorem c8_split_filenames :
    (∀ (base : String) (s e : Int),
      make_split_name base s e none = some (defaultSplitName base s e)) ∧
    (∀ (base : String) (s : Int),
      defaultSplitName base s s = base ++ "_p" ++ toString s ++ ".pdf") ∧
    (∀ (base : String) (s e : Int), s ≠ e →
      defaultSplitName base s e =
        base ++ "_p" ++ toString s ++ "-" ++ toString e ++ ".pdf") ∧
    (∀ (ps : List PatPiece) (base : String) (s e : Int),
      patLitsOk ps = true → patText ps ≠ "" →
      make_split_name base s e (some (patText ps)) = some (patSubst base s e ps)) ∧
    (∀ (base : String) (s e : Int),
      patSubst base s e [.fldBase] = base ∧
      patSubst base s e [.fldStart] = toString s ∧
      patSubst base s e [.fldEnd] = toString e ∧
      patSubst base s e [.fldPage] = (if s = e then toString s else "None")) := by
  refine ⟨?_, ?_, ?_, ?_, ?_⟩
  · intro base s e
    rfl
  · intro base s
    unfold defaultSplitName
    rw [if_pos rfl]
  · intro base s e h
    unfold defaultSplitName
    rw [if_neg h]
  · intro ps base s e hok hne
    simp only [make_split_name]
    rw [if_pos hne]
    exact pyFormat_template base s e ps hok
  · intro base s e
    refine ⟨?_, ?_, ?_, ?_⟩ <;> (show _ ++ "" = _; exact append_mk_nil _)

theorem c8_split_filenames_witness :
    make_split_name "report" 4 9
      (some (patText [.lit "seg_", .fldBase, .lit "_", .fldStart, .lit "-",
        .fldEnd, .lit "_", .fldPage, .lit ".pdf"])) =
      some (patSubst "report" 4 9 [.lit "seg_", .fldBase, .lit "_", .fldStart,
        .lit "-", .fldEnd, .lit "_", .fldPage, .lit ".pdf"]) :=
  c8_split_filenames.2.2.2.1 [.lit "seg_", .fldBase, .lit "_", .fldStart, .lit "-",
    .fldEnd, .lit "_", .fldPage, .lit ".pdf"] "report" 4 9 (by decide) (by decide)
